import Mathlib

/-!
Verification of the EDA CLI tool (`eda-cli`): a shallow embedding of its
table-analysis pipeline and of the `report` command of `src/eda_cli/cli.py`.

The analysis functions (`summarize_dataset`, `missing_table`,
`correlation_matrix`, `top_categories`, `compute_quality_flags`) live in
`src/eda_cli/core.py`, which is not among the provided sources (only its
tests and its caller `cli.py` are); those definitions are therefore modelled
from the specification, as their doc comments note.  The `report` command
model follows `cli.py` line by line.
-/

/-- A single table cell: a numeric value, a string value, or the missing
marker (NaN / None in the pandas implementation).  Numbers are modelled as
exact rationals. -/
inductive Cell where
  | missing : Cell
  | num : Rat → Cell
  | str : String → Cell
deriving DecidableEq

/-- Whether a cell is the missing marker. -/
def Cell.isMissing : Cell → Bool
  | .missing => true
  | _ => false

/-- Whether a cell holds a numeric value. -/
def Cell.isNum : Cell → Bool
  | .num _ => true
  | _ => false

/-- The numeric value of a cell, when it has one. -/
def Cell.toNum? : Cell → Option Rat
  | .num q => some q
  | _ => none

/-- A named column: an ordered sequence of cells. -/
structure Col where
  name : String
  cells : List Cell
deriving DecidableEq

/-- A table: an ordered sequence of named columns. -/
structure Table where
  cols : List Col
deriving DecidableEq

/-- Number of rows of a table (length of its first column; 0 when there are
no columns).  The data-model invariant `Table.WF` makes all columns share
this length. -/
def nRows (t : Table) : Nat :=
  match t.cols with
  | [] => 0
  | c :: _ => c.cells.length

/-- The data-model invariant: all columns have equal length, the row count. -/
def Table.WF (t : Table) : Prop :=
  ∀ c ∈ t.cols, c.cells.length = nRows t

instance (t : Table) : Decidable t.WF := by
  unfold Table.WF; infer_instance

/-- The non-missing cells of a column, in order. -/
def nonMissing (cs : List Cell) : List Cell :=
  cs.filter (fun c => !c.isMissing)

/-- The number of missing cells of a column. -/
def missingCount (cs : List Cell) : Nat :=
  (cs.filter (fun c => c.isMissing)).length

/-- The numeric values of a column, in order. -/
def numCells (cs : List Cell) : List Rat :=
  cs.filterMap Cell.toNum?

/-- A column is numeric when every non-missing value is a number
(spec 4.1: "numeric if all non-missing values parse as numbers"). -/
def isNumericCol (c : Col) : Bool :=
  (nonMissing c.cells).all Cell.isNum

/-- A column is categorical when it is not numeric (spec 4.1:
"categorical/other otherwise"). -/
def isCategoricalCol (c : Col) : Bool :=
  !isNumericCol c

/-- First occurrences of the values of a list, left to right, skipping
values already seen (`seen` accumulates them). -/
def firstOccsAux (seen : List Cell) : List Cell → List Cell
  | [] => []
  | a :: l => if a ∈ seen then firstOccsAux seen l else a :: firstOccsAux (a :: seen) l

/-- The distinct values of a list in first-occurrence order. -/
def firstOccs (l : List Cell) : List Cell :=
  firstOccsAux [] l

/-- Number of distinct non-missing values of a column. -/
def distinctCount (cs : List Cell) : Nat :=
  (firstOccs (nonMissing cs)).length

section SortDesc

variable {α : Type} {β : Type} [LinearOrder β]

/-- Insert `p` into `l` before the first element whose key is not larger:
the insertion step of a stable descending insertion sort. -/
def insertDescBy (key : α → β) (p : α) : List α → List α
  | [] => [p]
  | q :: l => if key p < key q then q :: insertDescBy key p l else p :: q :: l

/-- Stable sort in descending key order: equal-key elements keep their
input order. -/
def sortDescBy (key : α → β) : List α → List α
  | [] => []
  | p :: l => insertDescBy key p (sortDescBy key l)

end SortDesc

/-- One row of the missing-value table. -/
structure MissingEntry where
  name : String
  missing_count : Nat
  missing_share : Rat
deriving DecidableEq

/-- Modelled from the spec: the per-column missing entries of
`missing_table` in `eda_cli/core.py` (absent from the sources), in table
column order, before sorting.  Spec 4.2: `missing_share` = missing_count /
n_rows. -/
def missingEntries (t : Table) : List MissingEntry :=
  t.cols.map (fun c =>
    { name := c.name
      missing_count := missingCount c.cells
      missing_share := (missingCount c.cells : Rat) / (nRows t : Rat) })

/-- Modelled from the spec: `missing_table` of `eda_cli/core.py` (absent
from the sources).  Spec 4.2: entries sorted descending by missing share,
ties broken by column order (stable sort); a table with zero rows yields an
empty result rather than a division error. -/
def missing_table (t : Table) : List MissingEntry :=
  if nRows t = 0 then []
  else sortDescBy (fun e => e.missing_share) (missingEntries t)

/-- Column type as classified by the profiler. -/
inductive Dtype where
  | numeric : Dtype
  | categorical : Dtype
  | other : Dtype
deriving DecidableEq

/-- Sum of a list of rationals. -/
def ratSum (l : List Rat) : Rat :=
  l.foldr (· + ·) 0

/-- Minimum of a list of rationals, when non-empty. -/
def listMin? : List Rat → Option Rat
  | [] => none
  | a :: l => some (l.foldr min a)

/-- Maximum of a list of rationals, when non-empty. -/
def listMax? : List Rat → Option Rat
  | [] => none
  | a :: l => some (l.foldr max a)

/-- Mean of a list of rationals, when non-empty. -/
def mean? (l : List Rat) : Option Rat :=
  if l.length = 0 then none else some (ratSum l / (l.length : Rat))

/-- Per-column summary produced by the profiler (spec 3). -/
structure ColumnSummary where
  name : String
  dtype : Dtype
  missing_count : Nat
  unique_count : Nat
  vmin : Option Rat
  vmax : Option Rat
  vmean : Option Rat
deriving DecidableEq

/-- Dataset-level summary produced by the profiler (spec 3). -/
structure DatasetSummary where
  n_rows : Nat
  n_cols : Nat
  columns : List ColumnSummary
deriving DecidableEq

/-- Modelled from the spec: the per-column part of `summarize_dataset` of
`eda_cli/core.py` (absent from the sources).  Spec 4.1. -/
def summarizeCol (c : Col) : ColumnSummary :=
  { name := c.name
    dtype := if isNumericCol c then .numeric else .categorical
    missing_count := missingCount c.cells
    unique_count := distinctCount c.cells
    vmin := if isNumericCol c then listMin? (numCells c.cells) else none
    vmax := if isNumericCol c then listMax? (numCells c.cells) else none
    vmean := if isNumericCol c then mean? (numCells c.cells) else none }

/-- Modelled from the spec: `summarize_dataset` of `eda_cli/core.py`
(absent from the sources).  Spec 4.1. -/
def summarize_dataset (t : Table) : DatasetSummary :=
  { n_rows := nRows t
    n_cols := t.cols.length
    columns := t.cols.map summarizeCol }

/-- Modelled from the spec: the value-frequency table of one column inside
`top_categories` of `eda_cli/core.py` (absent from the sources).  Spec 4.4:
count the frequency of each distinct non-missing value; the list is in
first-occurrence order. -/
def valueCounts (cs : List Cell) : List (Cell × Nat) :=
  (firstOccs (nonMissing cs)).map (fun v => (v, (nonMissing cs).count v))

/-- Modelled from the spec: one column's sorted value table inside
`top_categories` of `eda_cli/core.py` (absent from the sources), before
truncation.  Spec 4.4: sort descending by count, ties broken by
first-occurrence order (stable sort). -/
def topValuesFull (cs : List Cell) : List (Cell × Nat) :=
  sortDescBy (fun p => p.2) (valueCounts cs)

/-- Modelled from the spec: one column's value table of `top_categories`,
truncated to `top_k`. -/
def topValues (cs : List Cell) (top_k : Nat) : List (Cell × Nat) :=
  (topValuesFull cs).take top_k

/-- The categorical/string columns of a table, in table order. -/
def catCols (t : Table) : List Col :=
  t.cols.filter isCategoricalCol

/-- Modelled from the spec: `top_categories` of `eda_cli/core.py` (absent
from the sources).  Spec 4.4: select up to `max_columns` categorical
columns in table order; a selected column with zero non-missing values
yields an empty value table and is not omitted. -/
def top_categories (t : Table) (max_columns top_k : Nat) :
    List (String × List (Cell × Nat)) :=
  ((catCols t).take max_columns).map (fun c => (c.name, topValues c.cells top_k))

/-- The rows where both columns have a numeric value, as value pairs
(pairwise-complete observations, spec 4.3). -/
def pairedObs : List Cell → List Cell → List (Rat × Rat)
  | x :: xs, y :: ys =>
    match x.toNum?, y.toNum? with
    | some a, some b => (a, b) :: pairedObs xs ys
    | _, _ => pairedObs xs ys
  | _, _ => []

/-- Sum of the first components of a list of pairs. -/
def sX (ps : List (Rat × Rat)) : Rat := ratSum (ps.map Prod.fst)

/-- Sum of the second components of a list of pairs. -/
def sY (ps : List (Rat × Rat)) : Rat := ratSum (ps.map Prod.snd)

/-- Sum of the products of the pairs. -/
def sXY (ps : List (Rat × Rat)) : Rat := ratSum (ps.map (fun p => p.1 * p.2))

/-- Sum of the squares of the first components. -/
def sXX (ps : List (Rat × Rat)) : Rat := ratSum (ps.map (fun p => p.1 * p.1))

/-- Sum of the squares of the second components. -/
def sYY (ps : List (Rat × Rat)) : Rat := ratSum (ps.map (fun p => p.2 * p.2))

/-- Numerator of the Pearson coefficient over the paired observations,
scaled by `n`: `n·Σxy − Σx·Σy`. -/
def corrNum (ps : List (Rat × Rat)) : Rat :=
  (ps.length : Rat) * sXY ps - sX ps * sY ps

/-- Square of the Pearson denominator over the paired observations, scaled
by `n²`: `(n·Σx² − (Σx)²) · (n·Σy² − (Σy)²)`. -/
def corrDenSq (ps : List (Rat × Rat)) : Rat :=
  ((ps.length : Rat) * sXX ps - sX ps * sX ps)
    * ((ps.length : Rat) * sYY ps - sY ps * sY ps)

/-- An exact representation of a Pearson correlation coefficient: the value
denoted is `num / sqrt denSq`; `CorrVal.toReal` gives that reading.  The
coefficient `1.0` is represented by `⟨1, 1⟩`. -/
structure CorrVal where
  num : Rat
  denSq : Rat
deriving DecidableEq

/-- The real number a `CorrVal` denotes. -/
noncomputable def CorrVal.toReal (v : CorrVal) : Real :=
  (v.num : Real) / Real.sqrt (v.denSq : Real)

/-- Modelled from the spec: one cell of `correlation_matrix` of
`eda_cli/core.py` (absent from the sources).  Spec 4.3: self-correlation is
1.0 for any column with at least one valid value, else undefined; a pair
with fewer than 2 valid observation pairs is undefined; otherwise the
Pearson coefficient over the pairwise-complete observations. -/
def corrCell (c d : Col) : Option CorrVal :=
  if c = d then
    if 1 ≤ (numCells c.cells).length then some ⟨1, 1⟩ else none
  else
    if (pairedObs c.cells d.cells).length < 2 then none
    else some ⟨corrNum (pairedObs c.cells d.cells),
               corrDenSq (pairedObs c.cells d.cells)⟩

/-- The numeric columns of a table, in table order. -/
def numericCols (t : Table) : List Col :=
  t.cols.filter isNumericCol

/-- Modelled from the spec: `correlation_matrix` of `eda_cli/core.py`
(absent from the sources).  Spec 4.3: restricted to numeric columns; empty
when fewer than 2 numeric columns. -/
def correlation_matrix (t : Table) :
    List (String × List (String × Option CorrVal)) :=
  if (numericCols t).length < 2 then []
  else (numericCols t).map (fun c =>
    (c.name, (numericCols t).map (fun d => (d.name, corrCell c d))))

/-- Minimum row count below which `too_few_rows` triggers (spec 4.5). -/
def minRowsThreshold : Nat := 10

/-- Maximum column count above which `too_many_columns` triggers
(spec 4.5). -/
def maxColsThreshold : Nat := 50

/-- Missing-share level above which `too_many_missing` triggers
(spec 4.5). -/
def missingShareThreshold : Rat := 1/2

/-- Quality-score penalty for `too_few_rows` (spec 4.5: exact weights are
an implementation choice; these are the model's documented weights). -/
def penaltyFewRows : Rat := 1/5

/-- Quality-score penalty for `too_many_columns`. -/
def penaltyManyCols : Rat := 1/10

/-- Quality-score penalty for `too_many_missing`. -/
def penaltyManyMissing : Rat := 1/5

/-- Quality-score penalty per constant column. -/
def penaltyPerConstantCol : Rat := 1/10

/-- Quality-score penalty per duplicate-bearing ID column. -/
def penaltyPerIdDupCol : Rat := 3/20

/-- Maximum missing share over a missing table, 0.0 when empty
(spec 4.5). -/
def maxMissingShare (m : List MissingEntry) : Rat :=
  m.foldr (fun e acc => max e.missing_share acc) 0

/-- Modelled from the spec: constant-column test of
`compute_quality_flags` in `eda_cli/core.py` (absent from the sources).
Spec 4.5: a column is constant if it has at least one non-missing value
and at most one distinct non-missing value. -/
def isConstantCol (c : Col) : Bool :=
  decide (1 ≤ (nonMissing c.cells).length) && decide (distinctCount c.cells ≤ 1)

/-- Modelled from the spec: the ID-like naming pattern of
`compute_quality_flags` in `eda_cli/core.py` (absent from the sources).
Spec 4.5: the name equals "id" or ends with "_id", case-insensitive. -/
def isIdName (s : String) : Bool :=
  let l := s.data.map Char.toLower
  decide (l = ['i', 'd']) || decide (l.drop (l.length - 3) = ['_', 'i', 'd'])

/-- Modelled from the spec: reported duplicate count of an ID candidate
column, `(non-missing value count) − (distinct non-missing value count)`
(spec 4.5). -/
def idDuplicates (c : Col) : Nat :=
  (nonMissing c.cells).length - distinctCount c.cells

/-- The constant columns of a table, in table order. -/
def constantCols (t : Table) : List Col :=
  t.cols.filter isConstantCol

/-- The ID-named columns of a table that carry duplicates, in table
order. -/
def idDupCols (t : Table) : List Col :=
  t.cols.filter (fun c => isIdName c.name && decide (0 < idDuplicates c))

/-- The constant columns of the optional raw table; empty when the raw
table is absent (spec 4.5 graceful degradation). -/
def constColsOf : Option Table → List Col
  | none => []
  | some t => constantCols t

/-- The duplicate-bearing ID columns of the optional raw table; empty when
the raw table is absent (spec 4.5 graceful degradation). -/
def idDupColsOf : Option Table → List Col
  | none => []
  | some t => idDupCols t

/-- One entry of `id_columns_with_duplicates` (spec 3). -/
structure IdDupEntry where
  column : String
  duplicates : Nat
deriving DecidableEq

/-- The quality flags record (spec 3). -/
structure QualityFlags where
  quality_score : Rat
  too_few_rows : Bool
  too_many_columns : Bool
  too_many_missing : Bool
  max_missing_share : Rat
  has_constant_columns : Bool
  constant_columns_list : List String
  constant_columns_count : Nat
  has_suspicious_id_duplicates : Bool
  id_columns_with_duplicates : List IdDupEntry
deriving DecidableEq

/-- Modelled from the spec: the total quality-score penalty of
`compute_quality_flags` in `eda_cli/core.py` (absent from the sources).
Spec 4.5: fixed penalties for each triggered condition, per constant
column and per duplicate-ID column. -/
def penaltyOf (s : DatasetSummary) (m : List MissingEntry)
    (t? : Option Table) : Rat :=
  (if s.n_rows < minRowsThreshold then penaltyFewRows else 0)
    + (if maxColsThreshold < s.n_cols then penaltyManyCols else 0)
    + (if missingShareThreshold < maxMissingShare m then penaltyManyMissing else 0)
    + ((constColsOf t?).length : Rat) * penaltyPerConstantCol
    + ((idDupColsOf t?).length : Rat) * penaltyPerIdDupCol

/-- Modelled from the spec: `compute_quality_flags` of `eda_cli/core.py`
(absent from the sources).  Spec 4.5: the raw table is optional; when it is
absent the two raw-table heuristics default to false/empty and the rest is
computed from the summary and missing table alone; the score starts at 1.0,
is reduced by the penalties of the triggered conditions and floored at
0.0.  The function is total: it never fails for a missing optional
argument. -/
def compute_quality_flags (s : DatasetSummary) (m : List MissingEntry)
    (t? : Option Table) : QualityFlags :=
  { quality_score := max 0 (1 - penaltyOf s m t?)
    too_few_rows := decide (s.n_rows < minRowsThreshold)
    too_many_columns := decide (maxColsThreshold < s.n_cols)
    too_many_missing := decide (missingShareThreshold < maxMissingShare m)
    max_missing_share := maxMissingShare m
    has_constant_columns := decide (0 < (constColsOf t?).length)
    constant_columns_list := (constColsOf t?).map Col.name
    constant_columns_count := (constColsOf t?).length
    has_suspicious_id_duplicates := decide (0 < (idDupColsOf t?).length)
    id_columns_with_duplicates :=
      (idDupColsOf t?).map (fun c => ⟨c.name, idDuplicates c⟩) }

/-- The quality score the `report` command computes for a loaded table:
`compute_quality_flags(summarize_dataset(df), missing_table(df), df)`
(`cli.py` line 117). -/
def pipelineScore (t : Table) : Rat :=
  (compute_quality_flags (summarize_dataset t) (missing_table t) (some t)).quality_score

/-- The table `t` with the column `c` appended. -/
def appendCol (t : Table) (c : Col) : Table :=
  ⟨t.cols ++ [c]⟩

/-- The problematic-column list of the `report` command (`cli.py` lines
120-124): names of missing-table entries whose missing share strictly
exceeds `min_missing_share`; empty when the missing table is empty. -/
def problematic_columns (m : List MissingEntry) (min_missing_share : Rat) :
    List String :=
  (m.filter (fun e => decide (min_missing_share < e.missing_share))).map
    (fun e => e.name)

/-- The configurable options of the `report` command that the model tracks
(`cli.py` lines 64-89).  The output directory, separator, encoding and
title only name artifacts or prose and are abstracted away. -/
structure ReportArgs where
  maxHistColumns : Nat
  topKCategories : Nat
  minMissingShare : Rat
deriving DecidableEq

/-- A filesystem side effect of the `report` command, in program order.
Payloads record the data handed to the writer. -/
inductive FsEvent where
  | mkdirOut : FsEvent
  | writeSummaryCsv : FsEvent
  | writeMissingCsv : FsEvent
  | writeCorrelationCsv : FsEvent
  | saveTopCats : List (String × List (Cell × Nat)) → FsEvent
  | writeReportMd : List String → FsEvent
  | plotHistograms : Nat → FsEvent
  | plotMissingMatrix : FsEvent
  | plotCorrHeatmap : FsEvent
deriving DecidableEq

/-- Outcome of one `report` invocation: its filesystem events in order and
its process exit code. -/
structure ReportResult where
  events : List FsEvent
  exitCode : Nat
deriving DecidableEq

/-- The `report` command of `cli.py` (lines 89-218).  `load?` is the
outcome of `_load_csv`: `none` when the file is missing or unparsable
(`typer.BadParameter`, exit code 2).  The command validates
`min_missing_share`, creates the output directory (line 103), then loads
the CSV (line 105); on load failure the directory creation has already
happened but nothing has been written.  On success it computes the tables,
writes the CSV artifacts (missing/correlation only when non-empty), calls
`top_categories` with `max_columns=5` (line 114), writes the Markdown
report carrying the problematic-column list, and renders the charts. -/
def reportCmd (a : ReportArgs) (load? : Option Table) : ReportResult :=
  if ¬ (0 ≤ a.minMissingShare ∧ a.minMissingShare ≤ 1) then ⟨[], 2⟩
  else
    match load? with
    | none => ⟨[.mkdirOut], 2⟩
    | some t =>
      ⟨[.mkdirOut, .writeSummaryCsv]
        ++ (if (missing_table t).isEmpty then [] else [.writeMissingCsv])
        ++ (if (correlation_matrix t).isEmpty then [] else [.writeCorrelationCsv])
        ++ [.saveTopCats (top_categories t 5 a.topKCategories),
            .writeReportMd (problematic_columns (missing_table t) a.minMissingShare),
            .plotHistograms a.maxHistColumns,
            .plotMissingMatrix,
            .plotCorrHeatmap],
       0⟩

/-- The `age` column of the tests' `_sample_df`. -/
def sampleAgeCol : Col := ⟨"age", [.num 10, .num 20, .num 30, .missing]⟩

/-- The `height` column of the tests' `_sample_df`. -/
def sampleHeightCol : Col := ⟨"height", [.num 140, .num 150, .num 160, .num 170]⟩

/-- The `city` column of the tests' `_sample_df`. -/
def sampleCityCol : Col := ⟨"city", [.str "A", .str "B", .str "A", .missing]⟩

/-- The tests' `_sample_df` table. -/
def sampleDf : Table := ⟨[sampleAgeCol, sampleHeightCol, sampleCityCol]⟩

/-- The `user_id` column of `test_id_duplicates_detection`: one duplicate. -/
def userIdCol : Col := ⟨"user_id", [.num 1, .num 2, .num 2, .num 3, .num 4]⟩

/-- The table of `test_id_duplicates_detection` (the textual `name` column
is irrelevant to the flags and omitted). -/
def userIdTable : Table :=
  ⟨[userIdCol, ⟨"value", [.num 10, .num 20, .num 30, .num 40, .num 50]⟩]⟩

/-- The constant `status` column of `test_constant_columns_detection`. -/
def statusCol : Col :=
  ⟨"status", [.str "active", .str "active", .str "active", .str "active"]⟩

/-- The table of `test_constant_columns_detection`. -/
def statusTable : Table :=
  ⟨[⟨"user_id", [.num 1, .num 2, .num 3, .num 4]⟩, statusCol,
    ⟨"value", [.num 10, .num 20, .num 30, .num 40]⟩]⟩

/-- A small one-column numeric table, used to exercise column appending. -/
def oneColTable : Table := ⟨[⟨"v", [.num 1, .num 2]⟩]⟩

/-- A constant two-cell string column matching `oneColTable`'s row count. -/
def constKCol : Col := ⟨"k", [.str "A", .str "A"]⟩

section SortDescLemmas

variable {α : Type} {β : Type} [LinearOrder β]

/-- Inserting permutes to consing. -/
theorem insertDescBy_perm (key : α → β) (p : α) (l : List α) :
    List.Perm (insertDescBy key p l) (p :: l) := by
  induction l with
  | nil => exact List.Perm.refl _
  | cons q l ih =>
    by_cases h : key p < key q
    · rw [insertDescBy, if_pos h]
      exact (ih.cons q).trans (List.Perm.swap p q l)
    · rw [insertDescBy, if_neg h]

/-- The stable descending sort permutes its input. -/
theorem sortDescBy_perm (key : α → β) (l : List α) :
    List.Perm (sortDescBy key l) l := by
  induction l with
  | nil => exact List.Perm.refl _
  | cons p l ih =>
    exact (insertDescBy_perm key p (sortDescBy key l)).trans (ih.cons p)

/-- Inserting into a descending-sorted list keeps it sorted. -/
theorem pairwise_insertDescBy (key : α → β) (p : α) (l : List α)
    (h : l.Pairwise (fun a b => key b ≤ key a)) :
    (insertDescBy key p l).Pairwise (fun a b => key b ≤ key a) := by
  induction l with
  | nil => simp [insertDescBy]
  | cons q l ih =>
    rcases List.pairwise_cons.mp h with ⟨hq, hl⟩
    by_cases hpq : key p < key q
    · rw [insertDescBy, if_pos hpq]
      refine List.pairwise_cons.mpr ⟨?_, ih hl⟩
      intro x hx
      rcases List.mem_cons.mp ((insertDescBy_perm key p l).mem_iff.mp hx) with hxp | hxl
      · exact hxp ▸ le_of_lt hpq
      · exact hq x hxl
    · rw [insertDescBy, if_neg hpq]
      push_neg at hpq
      refine List.pairwise_cons.mpr ⟨?_, h⟩
      intro x hx
      rcases List.mem_cons.mp hx with hxq | hxl
      · exact hxq ▸ hpq
      · exact le_trans (hq x hxl) hpq

/-- The stable descending sort sorts: keys are non-increasing. -/
theorem pairwise_sortDescBy (key : α → β) (l : List α) :
    (sortDescBy key l).Pairwise (fun a b => key b ≤ key a) := by
  induction l with
  | nil => simp [sortDescBy]
  | cons p l ih =>
    rw [sortDescBy]
    exact pairwise_insertDescBy key p _ ih

/-- Inserting does not disturb the subsequence of any fixed key. -/
theorem filter_insertDescBy (key : α → β) (p : α) (l : List α) (r : β) :
    (insertDescBy key p l).filter (fun a => decide (key a = r))
      = (p :: l).filter (fun a => decide (key a = r)) := by
  induction l with
  | nil => rfl
  | cons q l ih =>
    by_cases hpq : key p < key q
    · rw [insertDescBy, if_pos hpq]
      by_cases hq : key q = r
      · have hp : ¬ key p = r := by
          intro hp
          rw [hp, hq] at hpq
          exact lt_irrefl r hpq
        simp [List.filter_cons, hq, hp, ih]
      · simp [List.filter_cons, hq, ih]
    · rw [insertDescBy, if_neg hpq]

/-- Stability of the descending sort: for every key value `r`, the
subsequence of elements whose key is `r` is unchanged, so equal-key
elements appear in input order. -/
theorem filter_sortDescBy (key : α → β) (l : List α) (r : β) :
    (sortDescBy key l).filter (fun a => decide (key a = r))
      = l.filter (fun a => decide (key a = r)) := by
  induction l with
  | nil => rfl
  | cons p l ih =>
    rw [sortDescBy, filter_insertDescBy]
    by_cases hp : key p = r
    · simp [List.filter_cons, hp, ih]
    · simp [List.filter_cons, hp, ih]

end SortDescLemmas

/-- Membership in `firstOccsAux`: in the remainder and not yet seen. -/
theorem mem_firstOccsAux (x : Cell) :
    ∀ (l seen : List Cell), x ∈ firstOccsAux seen l ↔ x ∈ l ∧ x ∉ seen := by
  intro l
  induction l with
  | nil => intro seen; simp [firstOccsAux]
  | cons a l ih =>
    intro seen
    by_cases ha : a ∈ seen
    · rw [firstOccsAux, if_pos ha, ih]
      constructor
      · rintro ⟨hx, hs⟩
        exact ⟨List.mem_cons_of_mem a hx, hs⟩
      · rintro ⟨hx, hs⟩
        rcases List.mem_cons.mp hx with rfl | hx
        · exact absurd ha hs
        · exact ⟨hx, hs⟩
    · rw [firstOccsAux, if_neg ha]
      constructor
      · intro hx
        rcases List.mem_cons.mp hx with rfl | hx
        · exact ⟨List.mem_cons_self x l, ha⟩
        · rcases (ih (a :: seen)).mp hx with ⟨h1, h2⟩
          refine ⟨List.mem_cons_of_mem a h1, fun hs => h2 (List.mem_cons_of_mem a hs)⟩
      · rintro ⟨hx, hs⟩
        rcases List.mem_cons.mp hx with rfl | hx
        · exact List.mem_cons_self x _
        · by_cases hxa : x = a
          · exact hxa ▸ List.mem_cons_self a _
          · refine List.mem_cons_of_mem a ((ih (a :: seen)).mpr ⟨hx, ?_⟩)
            intro hmem
            rcases List.mem_cons.mp hmem with h | h
            · exact hxa h
            · exact hs h

/-- Membership in `firstOccs` is membership in the input. -/
theorem mem_firstOccs (x : Cell) (l : List Cell) :
    x ∈ firstOccs l ↔ x ∈ l := by
  rw [firstOccs, mem_firstOccsAux]
  simp

/-- `firstOccsAux` never repeats a value. -/
theorem nodup_firstOccsAux :
    ∀ (l seen : List Cell), (firstOccsAux seen l).Nodup := by
  intro l
  induction l with
  | nil => intro seen; simp [firstOccsAux]
  | cons a l ih =>
    intro seen
    by_cases ha : a ∈ seen
    · rw [firstOccsAux, if_pos ha]; exact ih seen
    · rw [firstOccsAux, if_neg ha]
      refine List.nodup_cons.mpr ⟨?_, ih (a :: seen)⟩
      intro hmem
      exact ((mem_firstOccsAux a l (a :: seen)).mp hmem).2 (List.mem_cons_self a seen)

/-- The distinct values in first-occurrence order are pairwise distinct:
`distinctCount` really counts distinct values. -/
theorem nodup_firstOccs (l : List Cell) : (firstOccs l).Nodup :=
  nodup_firstOccsAux l []

/-- A nonempty list has at least one distinct value. -/
theorem firstOccs_ne_nil (l : List Cell) (h : l ≠ []) : firstOccs l ≠ [] := by
  match l with
  | [] => exact absurd rfl h
  | a :: l =>
    rw [firstOccs, firstOccsAux, if_neg (List.not_mem_nil a)]
    exact List.cons_ne_nil a _

/-- Folding `max` is monotone in the initial value. -/
theorem foldrMax_mono_init (l : List MissingEntry) (b b' : Rat) (h : b ≤ b') :
    l.foldr (fun e acc => max e.missing_share acc) b
      ≤ l.foldr (fun e acc => max e.missing_share acc) b' := by
  induction l with
  | nil => exact h
  | cons e l ih => exact max_le_max le_rfl ih

/-- Folding `max` is invariant under permutation. -/
theorem foldrMax_perm (l1 l2 : List MissingEntry)
    (h : List.Perm l1 l2) (b : Rat) :
    l1.foldr (fun e acc => max e.missing_share acc) b
      = l2.foldr (fun e acc => max e.missing_share acc) b := by
  induction h with
  | nil => rfl
  | cons x _ ih => simp only [List.foldr_cons, ih]
  | swap x y l => simp only [List.foldr_cons]; rw [max_left_comm]
  | trans _ _ ih1 ih2 => exact ih1.trans ih2

/-- The maximum missing share is unchanged by the descending sort. -/
theorem maxMissingShare_sortDescBy (l : List MissingEntry) :
    maxMissingShare (sortDescBy (fun e => e.missing_share) l) = maxMissingShare l :=
  foldrMax_perm _ _ (sortDescBy_perm _ l) 0

/-- Appending an entry can only raise the maximum missing share. -/
theorem maxMissingShare_append_le (l : List MissingEntry) (e : MissingEntry) :
    maxMissingShare l ≤ maxMissingShare (l ++ [e]) := by
  rw [maxMissingShare, maxMissingShare, List.foldr_append]
  exact foldrMax_mono_init l 0 _ (le_max_right _ 0)

/-- C4: `compute_quality_flags` runs both with and without the optional raw
table (it is total by construction, so the missing optional input raises
nothing); without the raw table the two raw-table heuristics default to
false/empty, while the remaining flags and the quality score coincide with
what the summary and missing table alone determine. -/
theorem c4_optional_raw_table_degrades (s : DatasetSummary) (m : List MissingEntry) :
    (compute_quality_flags s m none).has_constant_columns = false
    ∧ (compute_quality_flags s m none).constant_columns_list = []
    ∧ (compute_quality_flags s m none).constant_columns_count = 0
    ∧ (compute_quality_flags s m none).has_suspicious_id_duplicates = false
    ∧ (compute_quality_flags s m none).id_columns_with_duplicates = []
    ∧ (∀ t : Table,
        (compute_quality_flags s m (some t)).too_few_rows
          = (compute_quality_flags s m none).too_few_rows
        ∧ (compute_quality_flags s m (some t)).too_many_columns
          = (compute_quality_flags s m none).too_many_columns
        ∧ (compute_quality_flags s m (some t)).too_many_missing
          = (compute_quality_flags s m none).too_many_missing
        ∧ (compute_quality_flags s m (some t)).max_missing_share
          = (compute_quality_flags s m none).max_missing_share)
    ∧ (compute_quality_flags s m none).quality_score
        = max 0 (1 -
            ((if (compute_quality_flags s m none).too_few_rows then penaltyFewRows else 0)
              + (if (compute_quality_flags s m none).too_many_columns then penaltyManyCols else 0)
              + (if (compute_quality_flags s m none).too_many_missing then penaltyManyMissing else 0))) := by
  refine ⟨rfl, rfl, rfl, rfl, rfl, fun t => ⟨rfl, rfl, rfl, rfl⟩, ?_⟩
  simp [compute_quality_flags, penaltyOf, constColsOf, idDupColsOf]

/-- C2: for a column whose name matches the ID-like pattern, the reported
duplicate count is (non-missing count) − (distinct non-missing count); the
column's entry is in `id_columns_with_duplicates` iff that count is
positive; and `has_suspicious_id_duplicates` holds iff some ID-named
column has a positive duplicate count. -/
theorem c2_id_duplicate_detection (s : DatasetSummary) (m : List MissingEntry)
    (t : Table) (c : Col) (hc : c ∈ t.cols) (hid : isIdName c.name = true) :
    idDuplicates c = (nonMissing c.cells).length - distinctCount c.cells
    ∧ ((⟨c.name, idDuplicates c⟩ : IdDupEntry)
        ∈ (compute_quality_flags s m (some t)).id_columns_with_duplicates
        ↔ 0 < idDuplicates c)
    ∧ ((compute_quality_flags s m (some t)).has_suspicious_id_duplicates = true
        ↔ ∃ c2 ∈ t.cols, isIdName c2.name = true ∧ 0 < idDuplicates c2) := by
  refine ⟨rfl, ?_, ?_⟩
  · show (⟨c.name, idDuplicates c⟩ : IdDupEntry)
        ∈ (idDupCols t).map (fun c2 => ⟨c2.name, idDuplicates c2⟩) ↔ 0 < idDuplicates c
    constructor
    · intro hmem
      rcases List.mem_map.mp hmem with ⟨c2, hc2, heq⟩
      rcases List.mem_filter.mp hc2 with ⟨_, hp⟩
      rw [Bool.and_eq_true] at hp
      rcases hp with ⟨_, hdup⟩
      have hd : idDuplicates c2 = idDuplicates c := congrArg IdDupEntry.duplicates heq
      rw [← hd]
      exact of_decide_eq_true hdup
    · intro hdup
      refine List.mem_map.mpr ⟨c, ?_, rfl⟩
      refine List.mem_filter.mpr ⟨hc, ?_⟩
      rw [Bool.and_eq_true]
      exact ⟨hid, decide_eq_true hdup⟩
  · show decide (0 < (idDupCols t).length) = true ↔ _
    rw [decide_eq_true_eq, List.length_pos]
    constructor
    · intro hne
      rcases List.exists_mem_of_ne_nil _ hne with ⟨c2, hc2⟩
      rcases List.mem_filter.mp hc2 with ⟨hmem, hp⟩
      rw [Bool.and_eq_true] at hp
      rcases hp with ⟨hname, hdup⟩
      exact ⟨c2, hmem, hname, of_decide_eq_true hdup⟩
    · rintro ⟨c2, hmem, hname, hdup⟩
      intro hnil
      have hin : c2 ∈ idDupCols t := by
        refine List.mem_filter.mpr ⟨hmem, ?_⟩
        rw [Bool.and_eq_true]
        exact ⟨hname, decide_eq_true hdup⟩
      rw [hnil] at hin
      exact List.not_mem_nil c2 hin

/-- C2 witness: the table of `test_id_duplicates_detection` — `user_id` =
[1,2,2,3,4] has 5 non-missing, 4 distinct values, so 1 duplicate, and it is
flagged. -/
theorem c2_id_duplicate_detection_witness :
    idDuplicates userIdCol = 1
    ∧ ((⟨userIdCol.name, idDuplicates userIdCol⟩ : IdDupEntry)
        ∈ (compute_quality_flags ⟨5, 3, []⟩ []
            (some userIdTable)).id_columns_with_duplicates
        ↔ 0 < idDuplicates userIdCol) := by
  refine ⟨by decide, ?_⟩
  exact (c2_id_duplicate_detection ⟨5, 3, []⟩ [] userIdTable userIdCol
    (by decide) (by decide)).2.1

/-- C3: given the raw table (with the data model's unique column names), a
column's name is in `constant_columns_list` iff the column has at least one
non-missing value and at most one distinct non-missing value; a column with
two or more distinct non-missing values is never listed;
`has_constant_columns` holds iff the list is non-empty, and
`constant_columns_count` is its length. -/
theorem c3_constant_column_detection (s : DatasetSummary) (m : List MissingEntry)
    (t : Table) (hnd : (t.cols.map Col.name).Nodup) :
    (∀ c ∈ t.cols,
      (c.name ∈ (compute_quality_flags s m (some t)).constant_columns_list
        ↔ 1 ≤ (nonMissing c.cells).length ∧ distinctCount c.cells ≤ 1))
    ∧ (∀ c ∈ t.cols, 2 ≤ distinctCount c.cells →
        c.name ∉ (compute_quality_flags s m (some t)).constant_columns_list)
    ∧ ((compute_quality_flags s m (some t)).has_constant_columns = true
        ↔ (compute_quality_flags s m (some t)).constant_columns_list ≠ [])
    ∧ (compute_quality_flags s m (some t)).constant_columns_count
        = (compute_quality_flags s m (some t)).constant_columns_list.length := by
  have hchar : ∀ c ∈ t.cols,
      (c.name ∈ (compute_quality_flags s m (some t)).constant_columns_list
        ↔ 1 ≤ (nonMissing c.cells).length ∧ distinctCount c.cells ≤ 1) := by
    intro c hc
    show c.name ∈ (constantCols t).map Col.name ↔ _
    constructor
    · intro hmem
      rcases List.mem_map.mp hmem with ⟨c2, hc2, heq⟩
      rcases List.mem_filter.mp hc2 with ⟨hc2mem, hp⟩
      have hcc : c2 = c := List.inj_on_of_nodup_map hnd hc2mem hc heq
      rw [← hcc]
      rw [isConstantCol, Bool.and_eq_true] at hp
      exact ⟨of_decide_eq_true hp.1, of_decide_eq_true hp.2⟩
    · rintro ⟨h1, h2⟩
      refine List.mem_map.mpr ⟨c, ?_, rfl⟩
      refine List.mem_filter.mpr ⟨hc, ?_⟩
      rw [isConstantCol, Bool.and_eq_true]
      exact ⟨decide_eq_true h1, decide_eq_true h2⟩
  refine ⟨hchar, ?_, ?_, (List.length_map _ _).symm⟩
  · intro c hc hdist hmem
    have := ((hchar c hc).mp hmem).2
    omega
  · show decide (0 < (constantCols t).length) = true ↔ (constantCols t).map Col.name ≠ []
    rw [decide_eq_true_eq, List.length_pos]
    constructor
    · intro hne hmapnil
      exact hne (List.map_eq_nil_iff.mp hmapnil)
    · intro hne hnil
      exact hne (by rw [hnil]; rfl)

/-- C3 witness: in the table of `test_constant_columns_detection` the
constant `status` column is listed, the non-constant `user_id` column (4
distinct values) is not, the flag is up and the count matches. -/
theorem c3_constant_column_detection_witness :
    ("status" ∈ (compute_quality_flags ⟨4, 3, []⟩ []
        (some statusTable)).constant_columns_list
      ↔ 1 ≤ (nonMissing statusCol.cells).length ∧ distinctCount statusCol.cells ≤ 1)
    ∧ "user_id" ∉ (compute_quality_flags ⟨4, 3, []⟩ []
        (some statusTable)).constant_columns_list := by
  have h := c3_constant_column_detection ⟨4, 3, []⟩ [] statusTable (by decide)
  exact ⟨h.1 statusCol (by decide),
    h.2.1 ⟨"user_id", [.num 1, .num 2, .num 3, .num 4]⟩ (by decide) (by decide)⟩

/-- The event list of a successful validation run of `report`: directory
creation, summary write, conditional missing/correlation writes, the
top-categories save with `max_columns = 5`, the Markdown report with the
problematic-column list, and the three chart renders (`cli.py` lines
102-207). -/
theorem reportCmd_events_some (a : ReportArgs) (t : Table)
    (hv : 0 ≤ a.minMissingShare ∧ a.minMissingShare ≤ 1) :
    (reportCmd a (some t)).events
      = [FsEvent.mkdirOut, FsEvent.writeSummaryCsv]
        ++ (if (missing_table t).isEmpty then [] else [FsEvent.writeMissingCsv])
        ++ (if (correlation_matrix t).isEmpty then [] else [FsEvent.writeCorrelationCsv])
        ++ [FsEvent.saveTopCats (top_categories t 5 a.topKCategories),
            FsEvent.writeReportMd (problematic_columns (missing_table t) a.minMissingShare),
            FsEvent.plotHistograms a.maxHistColumns,
            FsEvent.plotMissingMatrix, FsEvent.plotCorrHeatmap] := by
  rw [reportCmd, if_neg (not_not_intro hv)]

/-- C5 counterexample: with the default options and a failing load, the
`report` command exits non-zero but its event list is not empty — the
output directory has already been created (`cli.py` line 103 runs before
the load at line 105), refuting "no output artifact (directory or file) is
created before the load error". -/
theorem c5_counterexample :
    (reportCmd ⟨6, 5, 3/10⟩ none).exitCode ≠ 0
    ∧ (reportCmd ⟨6, 5, 3/10⟩ none).events ≠ [] := by
  have h : reportCmd ⟨6, 5, 3/10⟩ none = ⟨[FsEvent.mkdirOut], 2⟩ := by
    rw [reportCmd, if_neg (not_not_intro (by norm_num))]
  refine ⟨?_, ?_⟩ <;> rw [h] <;> decide

/-- C5 amended: when loading fails, the `report` command reports the error
and exits non-zero with no file written; the only artifact that precedes
the load error is the creation of the output directory itself. -/
theorem c5_load_error_only_mkdir (a : ReportArgs)
    (hv : 0 ≤ a.minMissingShare ∧ a.minMissingShare ≤ 1) :
    (reportCmd a none).exitCode ≠ 0
    ∧ (reportCmd a none).events = [FsEvent.mkdirOut] := by
  rw [reportCmd, if_neg (not_not_intro hv)]
  exact ⟨by decide, rfl⟩

/-- C5 amended witness: the default configuration with a failing load. -/
theorem c5_load_error_only_mkdir_witness :
    (reportCmd ⟨6, 5, 3/10⟩ none).exitCode ≠ 0
    ∧ (reportCmd ⟨6, 5, 3/10⟩ none).events = [FsEvent.mkdirOut] :=
  c5_load_error_only_mkdir ⟨6, 5, 3/10⟩ (by norm_num)

/-- C9: every successful-validation run of `report` saves exactly the
top-categories result computed with the hard-coded `max_columns = 5`
(`cli.py` line 114), so at most 5 categorical columns are profiled; no
option other than `--top-k-categories` influences that payload. -/
theorem c9_top_categories_cap (a : ReportArgs) (t : Table)
    (hv : 0 ≤ a.minMissingShare ∧ a.minMissingShare ≤ 1) :
    FsEvent.saveTopCats (top_categories t 5 a.topKCategories)
        ∈ (reportCmd a (some t)).events
    ∧ (∀ res, FsEvent.saveTopCats res ∈ (reportCmd a (some t)).events →
        res = top_categories t 5 a.topKCategories ∧ res.length ≤ 5)
    ∧ (∀ a2 : ReportArgs, 0 ≤ a2.minMissingShare ∧ a2.minMissingShare ≤ 1 →
        a2.topKCategories = a.topKCategories →
        FsEvent.saveTopCats (top_categories t 5 a.topKCategories)
          ∈ (reportCmd a2 (some t)).events) := by
  have hlen : (top_categories t 5 a.topKCategories).length ≤ 5 := by
    rw [top_categories, List.length_map, List.length_take]
    exact min_le_left _ _
  refine ⟨?_, ?_, ?_⟩
  · rw [reportCmd_events_some a t hv]
    simp [List.mem_append]
  · intro res hres
    rw [reportCmd_events_some a t hv] at hres
    by_cases h1 : (missing_table t).isEmpty <;>
      by_cases h2 : (correlation_matrix t).isEmpty <;>
        simp [h1, h2, List.mem_append] at hres <;>
          exact ⟨hres, hres ▸ hlen⟩
  · intro a2 hv2 hk
    rw [reportCmd_events_some a2 t hv2, hk]
    simp [List.mem_append]

/-- C9 witness: the sample table with the default options. -/
theorem c9_top_categories_cap_witness :
    FsEvent.saveTopCats (top_categories sampleDf 5 5)
      ∈ (reportCmd ⟨6, 5, 3/10⟩ (some sampleDf)).events :=
  (c9_top_categories_cap ⟨6, 5, 3/10⟩ sampleDf (by norm_num)).1

/-- C10: the `report` command classifies a column as problematic only when
its missing share strictly exceeds `min_missing_share`: a name is in the
problematic list iff some entry with that name strictly exceeds the
threshold, and an entry whose share equals the threshold exactly is never
listed; the Markdown report receives exactly that list. -/
theorem c10_problematic_strictly_exceeds (m : List MissingEntry) (mms : Rat)
    (e : MissingEntry) (hnd : (m.map MissingEntry.name).Nodup)
    (he : e ∈ m) (heq : e.missing_share = mms) :
    e.name ∉ problematic_columns m mms
    ∧ (∀ nm : String, nm ∈ problematic_columns m mms
        ↔ ∃ e2 ∈ m, nm = e2.name ∧ mms < e2.missing_share)
    ∧ (∀ (a : ReportArgs) (t : Table),
        0 ≤ a.minMissingShare ∧ a.minMissingShare ≤ 1 →
        FsEvent.writeReportMd (problematic_columns (missing_table t) a.minMissingShare)
          ∈ (reportCmd a (some t)).events) := by
  have hchar : ∀ nm : String, nm ∈ problematic_columns m mms
      ↔ ∃ e2 ∈ m, nm = e2.name ∧ mms < e2.missing_share := by
    intro nm
    constructor
    · intro hmem
      rcases List.mem_map.mp hmem with ⟨e2, he2, hname⟩
      rcases List.mem_filter.mp he2 with ⟨he2m, hp⟩
      exact ⟨e2, he2m, hname.symm, of_decide_eq_true hp⟩
    · rintro ⟨e2, he2m, rfl, hlt⟩
      exact List.mem_map.mpr ⟨e2, List.mem_filter.mpr ⟨he2m, decide_eq_true hlt⟩, rfl⟩
  refine ⟨?_, hchar, ?_⟩
  · intro hmem
    rcases (hchar e.name).mp hmem with ⟨e2, he2m, hname, hlt⟩
    have he2e : e2 = e := List.inj_on_of_nodup_map hnd he2m he hname.symm
    rw [he2e, heq] at hlt
    exact lt_irrefl mms hlt
  · intro a t hv
    rw [reportCmd_events_some a t hv]
    simp [List.mem_append]

/-- C10 witness: a two-entry missing table where `age` sits exactly at the
threshold 1/4 and is not listed, with the report event at the default
configuration. -/
theorem c10_problematic_strictly_exceeds_witness :
    (⟨"age", 1, 1/4⟩ : MissingEntry).name
        ∉ problematic_columns [⟨"age", 1, 1/4⟩, ⟨"city", 2, 1/2⟩] (1/4)
    ∧ FsEvent.writeReportMd (problematic_columns (missing_table sampleDf) (3/10))
        ∈ (reportCmd ⟨6, 5, 3/10⟩ (some sampleDf)).events := by
  have h := c10_problematic_strictly_exceeds
    [⟨"age", 1, 1/4⟩, ⟨"city", 2, 1/2⟩] (1/4) ⟨"age", 1, 1/4⟩
    (by decide) (List.mem_cons_self _ _) rfl
  exact ⟨h.1, h.2.2 ⟨6, 5, 3/10⟩ sampleDf (by norm_num)⟩

/-- C6: for a well-formed table with rows, every missing-table entry has
`missing_share` = missing_count / n_rows lying in [0,1]; the table is a
permutation of the per-column entries, sorted descending by share with
ties kept in column order (the equal-share subsequences are untouched);
and a zero-row table yields the empty result. -/
theorem c6_missing_table_shape (t : Table) (hwf : Table.WF t) :
    (nRows t = 0 → missing_table t = [])
    ∧ (0 < nRows t →
        List.Perm (missing_table t) (missingEntries t)
        ∧ (∀ e ∈ missing_table t,
            e.missing_share = (e.missing_count : Rat) / (nRows t : Rat)
            ∧ 0 ≤ e.missing_share ∧ e.missing_share ≤ 1)
        ∧ (missing_table t).Pairwise (fun a b => b.missing_share ≤ a.missing_share)
        ∧ (∀ r : Rat,
            (missing_table t).filter (fun e => decide (e.missing_share = r))
              = (missingEntries t).filter (fun e => decide (e.missing_share = r)))) := by
  constructor
  · intro h0
    rw [missing_table, if_pos h0]
  · intro hpos
    have hne : ¬ nRows t = 0 := by omega
    rw [missing_table, if_neg hne]
    refine ⟨sortDescBy_perm _ _, ?_, pairwise_sortDescBy _ _, fun r => filter_sortDescBy _ _ r⟩
    intro e he
    have hmem : e ∈ missingEntries t :=
      (sortDescBy_perm (fun e2 => e2.missing_share) (missingEntries t)).mem_iff.mp he
    rcases List.mem_map.mp hmem with ⟨c, hcmem, heq⟩
    rw [← heq]
    refine ⟨rfl, div_nonneg (Nat.cast_nonneg _) (Nat.cast_nonneg _), ?_⟩
    rw [div_le_one (by exact_mod_cast hpos)]
    have hle : missingCount c.cells ≤ nRows t := by
      rw [← hwf c hcmem]
      exact List.length_filter_le _ _
    exact_mod_cast hle

/-- C6 witness: the tests' `_sample_df` (4 rows, `age` and `city` each
missing one value). -/
theorem c6_missing_table_shape_witness :
    Table.WF sampleDf ∧ 0 < nRows sampleDf
    ∧ List.Perm (missing_table sampleDf) (missingEntries sampleDf)
    ∧ (missing_table sampleDf).Pairwise
        (fun a b => b.missing_share ≤ a.missing_share) := by
  have h := (c6_missing_table_shape sampleDf (by decide)).2 (by decide)
  exact ⟨by decide, by decide, h.1, h.2.2.1⟩

/-- C8: every per-column value table of `top_categories` has length at most
`top_k`; every selected column appears in the result (even with an empty
value table); counts are the frequencies among non-missing values and the
listed values are themselves non-missing; the table is sorted descending by
count with ties kept in first-occurrence order (the equal-count
subsequences of the pre-truncation sort are untouched); and a column with
zero non-missing values yields the empty value table. -/
theorem c8_top_categories_shape (t : Table) (maxc k : Nat) :
    (∀ p ∈ top_categories t maxc k, p.2.length ≤ k)
    ∧ (∀ c ∈ (catCols t).take maxc,
        (c.name, topValues c.cells k) ∈ top_categories t maxc k)
    ∧ (∀ cs : List Cell, ∀ p ∈ topValues cs k,
        p.1.isMissing = false ∧ p.2 = (nonMissing cs).count p.1)
    ∧ (∀ cs : List Cell, (topValues cs k).Pairwise (fun p q => q.2 ≤ p.2))
    ∧ (∀ (cs : List Cell) (n : Nat),
        (topValuesFull cs).filter (fun p => decide (p.2 = n))
          = (valueCounts cs).filter (fun p => decide (p.2 = n)))
    ∧ (∀ cs : List Cell, (nonMissing cs).length = 0 → topValues cs k = []) := by
  have hlen : ∀ cs : List Cell, (topValues cs k).length ≤ k := by
    intro cs
    rw [topValues, List.length_take]
    exact min_le_left _ _
  refine ⟨?_, ?_, ?_, ?_, ?_, ?_⟩
  · intro p hp
    rcases List.mem_map.mp hp with ⟨c, _, heq⟩
    rw [← heq]
    exact hlen c.cells
  · intro c hc
    exact List.mem_map.mpr ⟨c, hc, rfl⟩
  · intro cs p hp
    have hfull : p ∈ topValuesFull cs := List.take_subset _ _ hp
    rw [topValuesFull] at hfull
    have hvc : p ∈ valueCounts cs :=
      (sortDescBy_perm (fun q : Cell × Nat => q.2) (valueCounts cs)).mem_iff.mp hfull
    rcases List.mem_map.mp hvc with ⟨v, hv, heq⟩
    have hvnm : v ∈ nonMissing cs := (mem_firstOccs v _).mp hv
    have hvbool : v.isMissing = false := by
      rcases List.mem_filter.mp hvnm with ⟨_, hb⟩
      cases hvb : v.isMissing
      · rfl
      · rw [hvb] at hb; exact absurd hb (by decide)
    rw [← heq]
    exact ⟨hvbool, rfl⟩
  · intro cs
    exact List.Pairwise.sublist (List.take_sublist _ _) (pairwise_sortDescBy _ _)
  · intro cs n
    exact filter_sortDescBy (fun p => p.2) (valueCounts cs) n
  · intro cs h
    have hnil : nonMissing cs = [] := List.length_eq_zero.mp h
    have h1 : firstOccs [] = [] := rfl
    have h2 : sortDescBy (fun p : Cell × Nat => p.2) [] = [] := rfl
    rw [topValues, topValuesFull, valueCounts, hnil, h1, List.map_nil, h2,
      List.take_nil]

/-- C8 witness: `city` in the sample table with `top_k = 2`, and an
all-missing column yielding the empty value table. -/
theorem c8_top_categories_shape_witness :
    (sampleCityCol.name, topValues sampleCityCol.cells 2) ∈ top_categories sampleDf 5 2
    ∧ (topValues sampleCityCol.cells 2).length ≤ 2
    ∧ (topValues sampleCityCol.cells 2).Pairwise (fun p q => q.2 ≤ p.2)
    ∧ topValues [Cell.missing] 2 = [] := by
  have h := c8_top_categories_shape sampleDf 5 2
  have hmem := h.2.1 sampleCityCol (by decide)
  exact ⟨hmem, h.1 _ hmem, h.2.2.2.1 sampleCityCol.cells,
    h.2.2.2.2.2 [Cell.missing] (by decide)⟩

/-- Swapping the two column arguments transposes the paired observations. -/
theorem pairedObs_swap (xs ys : List Cell) :
    pairedObs ys xs = (pairedObs xs ys).map (fun p => (p.2, p.1)) := by
  induction xs generalizing ys with
  | nil => cases ys <;> rfl
  | cons x xs ih =>
    cases ys with
    | nil => rfl
    | cons y ys =>
      cases hx : x.toNum? <;> cases hy : y.toNum? <;>
        simp [pairedObs, hx, hy, ih ys]

/-- Sum of first components after transposing is the sum of second
components. -/
theorem sX_swap (ps : List (Rat × Rat)) :
    sX (ps.map (fun p => (p.2, p.1))) = sY ps := by
  rw [sX, sY, List.map_map]
  rfl

/-- Sum of second components after transposing is the sum of first
components. -/
theorem sY_swap (ps : List (Rat × Rat)) :
    sY (ps.map (fun p => (p.2, p.1))) = sX ps := by
  rw [sY, sX, List.map_map]
  rfl

/-- The product sum is invariant under transposing. -/
theorem sXY_swap (ps : List (Rat × Rat)) :
    sXY (ps.map (fun p => (p.2, p.1))) = sXY ps := by
  rw [sXY, sXY, List.map_map]
  refine congrArg ratSum (List.map_congr_left ?_)
  intro p _
  simp [Function.comp, mul_comm]

/-- The square sum of first components after transposing is that of the
second components. -/
theorem sXX_swap (ps : List (Rat × Rat)) :
    sXX (ps.map (fun p => (p.2, p.1))) = sYY ps := by
  rw [sXX, sYY, List.map_map]
  rfl

/-- The square sum of second components after transposing is that of the
first components. -/
theorem sYY_swap (ps : List (Rat × Rat)) :
    sYY (ps.map (fun p => (p.2, p.1))) = sXX ps := by
  rw [sYY, sXX, List.map_map]
  rfl

/-- The scaled Pearson numerator is invariant under transposing. -/
theorem corrNum_swap (ps : List (Rat × Rat)) :
    corrNum (ps.map (fun p => (p.2, p.1))) = corrNum ps := by
  rw [corrNum, corrNum, List.length_map, sXY_swap, sX_swap, sY_swap,
    mul_comm (sY ps) (sX ps)]

/-- The squared Pearson denominator is invariant under transposing. -/
theorem corrDenSq_swap (ps : List (Rat × Rat)) :
    corrDenSq (ps.map (fun p => (p.2, p.1))) = corrDenSq ps := by
  rw [corrDenSq, corrDenSq, List.length_map, sXX_swap, sYY_swap, sX_swap,
    sY_swap, mul_comm]

/-- The correlation cell is symmetric in its two columns. -/
theorem corrCell_symm (c d : Col) : corrCell c d = corrCell d c := by
  by_cases h : c = d
  · rw [h]
  · have h2 : ¬ d = c := fun e => h e.symm
    rw [corrCell, corrCell, if_neg h, if_neg h2,
      pairedObs_swap c.cells d.cells, List.length_map, corrNum_swap,
      corrDenSq_swap]

/-- C7: the correlation matrix is empty when fewer than 2 numeric columns
exist, and otherwise is the full grid of `corrCell` values over the
numeric columns; `corrCell` is symmetric; the diagonal cell of a column
with at least one valid value is the representation of 1.0; and a distinct
pair with fewer than 2 valid observation pairs is undefined (`none`)
rather than an error. -/
theorem c7_correlation_matrix_props (t : Table) :
    ((numericCols t).length < 2 → correlation_matrix t = [])
    ∧ (2 ≤ (numericCols t).length →
        correlation_matrix t
          = (numericCols t).map (fun c =>
              (c.name, (numericCols t).map (fun d => (d.name, corrCell c d)))))
    ∧ (∀ c d : Col, corrCell c d = corrCell d c)
    ∧ (∀ c : Col, 1 ≤ (numCells c.cells).length →
        corrCell c c = some ⟨1, 1⟩ ∧ CorrVal.toReal ⟨1, 1⟩ = 1)
    ∧ (∀ c d : Col, c ≠ d → (pairedObs c.cells d.cells).length < 2 →
        corrCell c d = none) := by
  refine ⟨?_, ?_, corrCell_symm, ?_, ?_⟩
  · intro h
    rw [correlation_matrix, if_pos h]
  · intro h
    rw [correlation_matrix, if_neg (by omega)]
  · intro c h1
    refine ⟨by rw [corrCell, if_pos rfl, if_pos h1], ?_⟩
    rw [CorrVal.toReal]
    simp
  · intro c d hne hlen
    rw [corrCell, if_neg hne, if_pos hlen]

/-- C7 witness: a one-numeric-column table has an empty matrix; the sample
`age` column self-correlates to 1.0; two distinct single-valued columns
have an undefined cell. -/
theorem c7_correlation_matrix_props_witness :
    correlation_matrix oneColTable = []
    ∧ corrCell sampleAgeCol sampleAgeCol = some ⟨1, 1⟩
    ∧ CorrVal.toReal ⟨1, 1⟩ = 1
    ∧ corrCell sampleAgeCol ⟨"one", [.num 5]⟩ = none := by
  have hdiag := (c7_correlation_matrix_props sampleDf).2.2.2.1 sampleAgeCol (by decide)
  refine ⟨(c7_correlation_matrix_props oneColTable).1 (by decide),
    hdiag.1, hdiag.2,
    (c7_correlation_matrix_props sampleDf).2.2.2.2 sampleAgeCol ⟨"one", [.num 5]⟩
      (by decide) (by decide)⟩

/-- Appending a column whose length matches the row count keeps the row
count. -/
theorem nRows_appendCol (t : Table) (c : Col) (hc : c.cells.length = nRows t) :
    nRows (appendCol t c) = nRows t := by
  rcases t with ⟨cols⟩
  cases cols with
  | nil => exact hc
  | cons hd tl => rfl

/-- The missing entries of the extended table are the old entries plus the
new column's entry. -/
theorem missingEntries_appendCol (t : Table) (c : Col)
    (hc : c.cells.length = nRows t) :
    missingEntries (appendCol t c)
      = missingEntries t
        ++ [⟨c.name, missingCount c.cells,
             (missingCount c.cells : Rat) / (nRows t : Rat)⟩] := by
  rw [missingEntries, missingEntries]
  have h : (appendCol t c).cols = t.cols ++ [c] := rfl
  rw [h, nRows_appendCol t c hc, List.map_append]
  rfl

/-- Appending a column can only raise the maximum missing share of the
missing table. -/
theorem maxMissingShare_pipeline_mono (t : Table) (c : Col)
    (hc : c.cells.length = nRows t) (hpos : 0 < nRows t) :
    maxMissingShare (missing_table t)
      ≤ maxMissingShare (missing_table (appendCol t c)) := by
  have h1 : ¬ nRows t = 0 := by omega
  have h2 : ¬ nRows (appendCol t c) = 0 := by
    rw [nRows_appendCol t c hc]; omega
  rw [missing_table, if_neg h1, missing_table, if_neg h2,
    maxMissingShare_sortDescBy, maxMissingShare_sortDescBy,
    missingEntries_appendCol t c hc]
  exact maxMissingShare_append_le _ _

/-- Appending a column can only grow the constant-column list. -/
theorem length_constantCols_appendCol (t : Table) (c : Col) :
    (constantCols t).length ≤ (constantCols (appendCol t c)).length := by
  show (t.cols.filter isConstantCol).length
    ≤ ((t.cols ++ [c]).filter isConstantCol).length
  rw [List.filter_append, List.length_append]
  omega

/-- Appending a column can only grow the duplicate-ID-column list. -/
theorem length_idDupCols_appendCol (t : Table) (c : Col) :
    (idDupCols t).length ≤ (idDupCols (appendCol t c)).length := by
  show (t.cols.filter _).length ≤ ((t.cols ++ [c]).filter _).length
  rw [List.filter_append, List.length_append]
  omega

/-- A nonnegative conditional penalty is monotone along an implication of
its trigger. -/
theorem ite_penalty_mono {p q : Prop} [Decidable p] [Decidable q]
    (a : Rat) (ha : 0 ≤ a) (h : p → q) :
    (if p then a else 0) ≤ (if q then a else 0) := by
  by_cases hp : p
  · rw [if_pos hp, if_pos (h hp)]
  · rw [if_neg hp]
    by_cases hq : q
    · rw [if_pos hq]; exact ha
    · rw [if_neg hq]

/-- The total penalty is nonnegative. -/
theorem penaltyOf_nonneg (s : DatasetSummary) (m : List MissingEntry)
    (t? : Option Table) : 0 ≤ penaltyOf s m t? := by
  rw [penaltyOf]
  have h1 : (0:Rat) ≤ if s.n_rows < minRowsThreshold then penaltyFewRows else 0 := by
    split
    · norm_num [penaltyFewRows]
    · exact le_refl 0
  have h2 : (0:Rat) ≤ if maxColsThreshold < s.n_cols then penaltyManyCols else 0 := by
    split
    · norm_num [penaltyManyCols]
    · exact le_refl 0
  have h3 : (0:Rat) ≤ if missingShareThreshold < maxMissingShare m then penaltyManyMissing else 0 := by
    split
    · norm_num [penaltyManyMissing]
    · exact le_refl 0
  have h4 : (0:Rat) ≤ ((constColsOf t?).length : Rat) * penaltyPerConstantCol :=
    mul_nonneg (Nat.cast_nonneg _) (by norm_num [penaltyPerConstantCol])
  have h5 : (0:Rat) ≤ ((idDupColsOf t?).length : Rat) * penaltyPerIdDupCol :=
    mul_nonneg (Nat.cast_nonneg _) (by norm_num [penaltyPerIdDupCol])
  linarith

/-- Appending a column with matching length to a table with rows can only
raise the total penalty of the report pipeline. -/
theorem penaltyOf_pipeline_mono (t : Table) (c : Col)
    (hc : c.cells.length = nRows t) (hpos : 0 < nRows t) :
    penaltyOf (summarize_dataset t) (missing_table t) (some t)
      ≤ penaltyOf (summarize_dataset (appendCol t c))
          (missing_table (appendCol t c)) (some (appendCol t c)) := by
  have hrows : (summarize_dataset (appendCol t c)).n_rows
      = (summarize_dataset t).n_rows := nRows_appendCol t c hc
  have hcols : (summarize_dataset (appendCol t c)).n_cols
      = (summarize_dataset t).n_cols + 1 := by
    show (t.cols ++ [c]).length = t.cols.length + 1
    rw [List.length_append]
    rfl
  rw [penaltyOf, penaltyOf]
  refine add_le_add (add_le_add (add_le_add (add_le_add ?_ ?_) ?_) ?_) ?_
  · rw [hrows]
  · refine ite_penalty_mono _ (by norm_num [penaltyManyCols]) ?_
    intro h
    rw [hcols]
    omega
  · refine ite_penalty_mono _ (by norm_num [penaltyManyMissing]) ?_
    intro h
    exact lt_of_lt_of_le h (maxMissingShare_pipeline_mono t c hc hpos)
  · refine mul_le_mul_of_nonneg_right ?_ (by norm_num [penaltyPerConstantCol])
    exact_mod_cast length_constantCols_appendCol t c
  · refine mul_le_mul_of_nonneg_right ?_ (by norm_num [penaltyPerIdDupCol])
    exact_mod_cast length_idDupCols_appendCol t c

/-- C1: the quality score always lies in [0,1]; a dataset with no triggered
flags (no row/column/missing trigger, no constant column, no duplicate-ID
column) scores exactly 1.0; and appending a constant column or a
duplicate-bearing ID column to a table never increases the score the
report pipeline computes. -/
theorem c1_quality_score_props :
    (∀ (s : DatasetSummary) (m : List MissingEntry) (t? : Option Table),
        0 ≤ (compute_quality_flags s m t?).quality_score
        ∧ (compute_quality_flags s m t?).quality_score ≤ 1)
    ∧ (∀ (s : DatasetSummary) (m : List MissingEntry) (t? : Option Table),
        (compute_quality_flags s m t?).too_few_rows = false →
        (compute_quality_flags s m t?).too_many_columns = false →
        (compute_quality_flags s m t?).too_many_missing = false →
        (compute_quality_flags s m t?).constant_columns_count = 0 →
        (compute_quality_flags s m t?).id_columns_with_duplicates = [] →
        (compute_quality_flags s m t?).quality_score = 1)
    ∧ (∀ (t : Table) (c : Col), c.cells.length = nRows t →
        (isConstantCol c = true ∨ (isIdName c.name = true ∧ 0 < idDuplicates c)) →
        pipelineScore (appendCol t c) ≤ pipelineScore t) := by
  refine ⟨?_, ?_, ?_⟩
  · intro s m t?
    constructor
    · exact le_max_left 0 _
    · refine max_le (by norm_num) ?_
      have := penaltyOf_nonneg s m t?
      linarith
  · intro s m t? h1 h2 h3 h4 h5
    have g1 : ¬ s.n_rows < minRowsThreshold := of_decide_eq_false h1
    have g2 : ¬ maxColsThreshold < s.n_cols := of_decide_eq_false h2
    have g3 : ¬ missingShareThreshold < maxMissingShare m := of_decide_eq_false h3
    have g4 : (constColsOf t?).length = 0 := h4
    have g5 : idDupColsOf t? = [] := List.map_eq_nil_iff.mp h5
    show max 0 (1 - penaltyOf s m t?) = 1
    rw [penaltyOf, if_neg g1, if_neg g2, if_neg g3, g4, g5]
    norm_num
  · intro t c hc hdef
    have h1 : 1 ≤ (nonMissing c.cells).length := by
      rcases hdef with h | h
      · rw [isConstantCol, Bool.and_eq_true] at h
        exact of_decide_eq_true h.1
      · have hd := h.2
        rw [idDuplicates] at hd
        omega
    have hpos : 0 < nRows t := by
      rw [← hc]
      calc 1 ≤ (nonMissing c.cells).length := h1
        _ ≤ c.cells.length := List.length_filter_le _ _
    show max 0 (1 - penaltyOf (summarize_dataset (appendCol t c))
        (missing_table (appendCol t c)) (some (appendCol t c)))
      ≤ max 0 (1 - penaltyOf (summarize_dataset t) (missing_table t) (some t))
    have hmono := penaltyOf_pipeline_mono t c hc hpos
    exact max_le_max le_rfl (by linarith)

/-- C1 witness: a clean 12-row summary with empty missing table scores in
bounds and exactly 1.0; appending the constant column `k` to the small
numeric table does not raise the pipeline score. -/
theorem c1_quality_score_props_witness :
    (0 ≤ (compute_quality_flags ⟨12, 3, []⟩ [] none).quality_score
      ∧ (compute_quality_flags ⟨12, 3, []⟩ [] none).quality_score ≤ 1)
    ∧ (compute_quality_flags ⟨12, 3, []⟩ [] none).quality_score = 1
    ∧ pipelineScore (appendCol oneColTable constKCol) ≤ pipelineScore oneColTable := by
  refine ⟨c1_quality_score_props.1 ⟨12, 3, []⟩ [] none, ?_, ?_⟩
  · refine c1_quality_score_props.2.1 ⟨12, 3, []⟩ [] none rfl rfl ?_ rfl rfl
    exact decide_eq_false (by norm_num [maxMissingShare, missingShareThreshold])
  · exact c1_quality_score_props.2.2 oneColTable constKCol (by decide)
      (Or.inl (by decide))
